import Mathlib

/-!
Shallow embedding of the extraction and aggregation pipeline of `src/app.py`
(`extract_area_logic`, `determine_config`, the APR lambda, and the
`valid_df`/`groupby` summary), over exact rational arithmetic.

Python floats are modelled by `ℚ` (exact real arithmetic; `round(x, 3)` is
modelled by round-half-to-even at three decimals, Python's rounding mode) and
Python strings by `List Char` (Unicode code points, as Python 3 strings are).
`\d` and `\s` are modelled over the character classes occurring in the two
scripts the program handles (ASCII and Devanagari digits, ASCII whitespace);
`str.lower` is modelled on ASCII letters, the only cased characters involved.

The regex `(\d+\.?\d*)\s*(?:चौ\.?\s*मी\.?|चौरस\s*मी[टत]र|sq\.?\s*m(?:tr)?\.?)`
used with `re.split` is modelled by a deterministic scanner.  Determinism is
exact for this pattern: backtracking a greedy `\d+`/`\d*` exposes a digit,
skipping `\.?` exposes a dot, and shrinking `\s*` exposes a whitespace
character, while every branch of the unit alternation begins with `च`, `s` or
`S`; hence the greedy-first parse is the only parse the engine can accept, and
a position matches iff the greedy parse matches.
-/

unseal Rat.add Rat.mul Rat.sub Rat.inv Rat.ofScientific

namespace App

/-- `\s` (ASCII whitespace; the program collapses all whitespace first). -/
def pyIsSpace (c : Char) : Bool :=
  c == ' ' || c == '\t' || c == '\n' || c == '\r' || c == '\x0b' || c == '\x0c'

/-- `\d` over the two scripts in scope: ASCII and Devanagari decimal digits. -/
def pyIsDigit (c : Char) : Bool :=
  c.isDigit || ('०' ≤ c && c ≤ '९')

/-- Decimal value of a digit character (used by `float(...)` on a match). -/
def digitVal (c : Char) : ℕ :=
  if c.isDigit then c.toNat - '0'.toNat
  else if '०' ≤ c ∧ c ≤ '९' then c.toNat - '०'.toNat
  else 0

def natOfDigits (cs : List Char) : ℕ :=
  cs.foldl (fun a c => 10 * a + digitVal c) 0

/-- `str.lower` on the characters in scope (ASCII letters; Devanagari has no case). -/
def pyLowerChar (c : Char) : Char :=
  if 'A' ≤ c ∧ c ≤ 'Z' then Char.ofNat (c.toNat + 32) else c

def beginsWith : List Char → List Char → Bool
  | [], _ => true
  | _ :: _, [] => false
  | a :: as, b :: bs => a == b && beginsWith as bs

/-- Python's `needle in hay` substring test. -/
def containsSub (needle : List Char) : List Char → Bool
  | [] => needle.isEmpty
  | c :: t => beginsWith needle (c :: t) || containsSub needle t

/-- `str.split()` helper: accumulates the current token reversed. -/
def splitWSAux : List Char → List Char → List (List Char)
  | [], cur => if cur.isEmpty then [] else [cur.reverse]
  | c :: t, cur =>
    if pyIsSpace c then
      if cur.isEmpty then splitWSAux t [] else cur.reverse :: splitWSAux t []
    else splitWSAux t (c :: cur)

/-- `str.split()` (split on whitespace runs, dropping empties). -/
def splitWS (cs : List Char) : List (List Char) := splitWSAux cs []

/-- `" ".join(...)`. -/
def joinTokens : List (List Char) → List Char
  | [] => []
  | [t] => t
  | t :: ts => t ++ ' ' :: joinTokens ts

/-- `str.replace(xy, z)` for a two-character pattern and one-character
replacement, left-to-right and non-overlapping as in Python. -/
def replacePair (x y z : Char) : List Char → List Char
  | [] => []
  | [c] => [c]
  | a :: b :: t =>
    if a = x ∧ b = y then z :: replacePair x y z t
    else a :: replacePair x y z (b :: t)

/-- `" ".join(str(text).split()).replace(' ,', ',').replace(', ', ',')`. -/
def normText (s : String) : List Char :=
  replacePair ',' ' ' ',' (replacePair ' ' ',' ',' (joinTokens (splitWS s.data)))

/-- Strip a literal token from the head of the input. -/
def stripLit : List Char → List Char → Option (List Char)
  | [], cs => some cs
  | _ :: _, [] => none
  | p :: ps, c :: cs => if c = p then stripLit ps cs else none

/-- Strip a literal token case-insensitively (pattern given in lowercase),
modelling `re.IGNORECASE` on the ASCII letters of the pattern. -/
def stripLitCI : List Char → List Char → Option (List Char)
  | [], cs => some cs
  | _ :: _, [] => none
  | p :: ps, c :: cs => if pyLowerChar c = p then stripLitCI ps cs else none

/-- A character class such as `[टत]`. -/
def eatOneOf (s : List Char) : List Char → Option (List Char)
  | [] => none
  | c :: t => if c ∈ s then some t else none

/-- `\.?` (greedy; exact here because no continuation may start with `.`). -/
def eatOptDot : List Char → List Char
  | [] => []
  | c :: t => if c = '.' then t else c :: t

/-- First alternative of `m_unit`: `चौ\.?\s*मी\.?`. -/
def mUnitAlt1 (cs : List Char) : Option (List Char) :=
  match stripLit ("चौ".data) cs with
  | none => none
  | some r1 =>
    match stripLit ("मी".data) ((eatOptDot r1).dropWhile pyIsSpace) with
    | none => none
    | some r2 => some (eatOptDot r2)

/-- Second alternative of `m_unit`: `चौरस\s*मी[टत]र`. -/
def mUnitAlt2 (cs : List Char) : Option (List Char) :=
  match stripLit ("चौरस".data) cs with
  | none => none
  | some r1 =>
    match stripLit ("मी".data) (r1.dropWhile pyIsSpace) with
    | none => none
    | some r2 =>
      match eatOneOf ("टत".data) r2 with
      | none => none
      | some r3 => stripLit ("र".data) r3

/-- Third alternative of `m_unit`: `sq\.?\s*m(?:tr)?\.?` (case-insensitive). -/
def mUnitAlt3 (cs : List Char) : Option (List Char) :=
  match stripLitCI ("sq".data) cs with
  | none => none
  | some r1 =>
    match stripLitCI ("m".data) ((eatOptDot r1).dropWhile pyIsSpace) with
    | none => none
    | some r2 =>
      some (eatOptDot (match stripLitCI ("tr".data) r2 with
        | some r3 => r3
        | none => r2))

/-- The full `m_unit` alternation, tried in the regex's order. -/
def matchMUnit (cs : List Char) : Option (List Char) :=
  match mUnitAlt1 cs with
  | some r => some r
  | none =>
    match mUnitAlt2 cs with
    | some r => some r
    | none => mUnitAlt3 cs

/-- Try `(\d+\.?\d*)\s*m_unit` at the current position; on success return the
captured number string and the input after the whole match. -/
def matchNumUnitAt (cs : List Char) : Option (List Char × List Char) :=
  match cs.takeWhile pyIsDigit with
  | [] => none
  | d :: ds =>
    let r1 := cs.dropWhile pyIsDigit
    let dotfp : List Char × List Char :=
      match r1 with
      | [] => ([], [])
      | c :: t =>
        if c = '.' then ('.' :: t.takeWhile pyIsDigit, t.dropWhile pyIsDigit)
        else ([], c :: t)
    match matchMUnit (dotfp.2.dropWhile pyIsSpace) with
    | some rest => some ((d :: ds) ++ dotfp.1, rest)
    | none => none

/-- `re.split` with the one-group number/unit pattern, presented as the list of
(context segment, captured number) pairs the extraction loop reads; the final
trailing segment (never used as a context) is dropped.  The fuel is the length
of the input; every step consumes at least one character, so it never runs out
(see `scanSplitF_fuel_irrelevant`). -/
def scanSplitF : ℕ → List Char → List Char → List (List Char × List Char)
  | 0, _, _ => []
  | _ + 1, [], _ => []
  | n + 1, c :: rest, acc =>
    match matchNumUnitAt (c :: rest) with
    | some (cap, after) => (acc.reverse, cap) :: scanSplitF n after []
    | none => scanSplitF n rest (c :: acc)

/-- `float(...)` on a captured `digits[.digits]` token, as an exact rational. -/
def strToRat (cs : List Char) : ℚ :=
  let ip := cs.takeWhile pyIsDigit
  let rest := cs.dropWhile pyIsDigit
  let fp : List Char :=
    match rest with
    | [] => []
    | c :: t => if c = '.' then t.takeWhile pyIsDigit else []
  (natOfDigits ip : ℚ) + (natOfDigits fp : ℚ) / ((10 : ℚ) ^ fp.length)

/-- Round-half-to-even to an integer (Python's rounding mode). -/
def roundHalfEven (q : ℚ) : ℤ :=
  let f := q.floor
  let r := q - (f : ℚ)
  if r < 1 / 2 then f
  else if 1 / 2 < r then f + 1
  else if f % 2 = 0 then f else f + 1

/-- `round(x, 3)`. -/
def pyRound3 (q : ℚ) : ℚ := (roundHalfEven (q * 1000) : ℚ) / 1000

/-- The three parking keywords checked against the lowered context. -/
def parkingWords : List (List Char) :=
  ["पार्किंग".data, "पार्कींग".data, "parking".data]

/-- Body of the extraction loop: keep a matched value iff `0 < val < 500` and
no parking keyword occurs in the lowered preceding context segment. -/
def keepVal (ctx cap : List Char) : Option ℚ :=
  let val := strToRat cap
  let c := ctx.map pyLowerChar
  if 0 < val ∧ val < 500 ∧ parkingWords.all (fun w => !containsSub w c) then
    some val
  else none

/-- The `m_vals` list accumulated by the loop over `m_segments`. -/
def mVals (cs : List Char) : List ℚ :=
  (scanSplitF cs.length cs []).filterMap (fun p => keepVal p.1 p.2)

/-- `extract_area_logic` of `src/app.py` (lines 97–109).  A missing (`NaN`)
cell is modelled as `none`.  The unused `f_unit` and `total_keywords` patterns
of the source have no effect on the result and do not appear here. -/
def extract_area_logic : Option String → ℚ
  | none => 0
  | some s =>
    if s = "" then 0
    else
      match mVals (normText s) with
      | [] => 0
      | v :: vs => pyRound3 ((v :: vs).sum)

/-- First alternative of the source's unused `f_unit` (line 101): `चौ\.?\s*फू\.?`. -/
def fUnitAlt1 (cs : List Char) : Option (List Char) :=
  match stripLit ("चौ".data) cs with
  | none => none
  | some r1 =>
    match stripLit ("फू".data) ((eatOptDot r1).dropWhile pyIsSpace) with
    | none => none
    | some r2 => some (eatOptDot r2)

/-- Second alternative of `f_unit`: `चौरस\s*फु[टत]`. -/
def fUnitAlt2 (cs : List Char) : Option (List Char) :=
  match stripLit ("चौरस".data) cs with
  | none => none
  | some r1 =>
    match stripLit ("फु".data) (r1.dropWhile pyIsSpace) with
    | none => none
    | some r2 => eatOneOf ("टत".data) r2

/-- Third alternative of `f_unit`: `sq\.?\s*f(?:t)?\.?` (case-insensitive). -/
def fUnitAlt3 (cs : List Char) : Option (List Char) :=
  match stripLitCI ("sq".data) cs with
  | none => none
  | some r1 =>
    match stripLitCI ("f".data) ((eatOptDot r1).dropWhile pyIsSpace) with
    | none => none
    | some r2 =>
      some (eatOptDot (match stripLitCI ("t".data) r2 with
        | some r3 => r3
        | none => r2))

/-- The full `f_unit` alternation of line 101 — defined in the source and
never used by it. -/
def matchFUnit (cs : List Char) : Option (List Char) :=
  match fUnitAlt1 cs with
  | some r => some r
  | none =>
    match fUnitAlt2 cs with
    | some r => some r
    | none => fUnitAlt3 cs

/-- `(\d+\.?\d*)\s*f_unit` at the current position: the imperial analogue of
`matchNumUnitAt`, used to exhibit imperial quantities the code ignores. -/
def matchNumFUnitAt (cs : List Char) : Option (List Char × List Char) :=
  match cs.takeWhile pyIsDigit with
  | [] => none
  | d :: ds =>
    let r1 := cs.dropWhile pyIsDigit
    let dotfp : List Char × List Char :=
      match r1 with
      | [] => ([], [])
      | c :: t =>
        if c = '.' then ('.' :: t.takeWhile pyIsDigit, t.dropWhile pyIsDigit)
        else ([], c :: t)
    match matchFUnit (dotfp.2.dropWhile pyIsSpace) with
    | some rest => some ((d :: ds) ++ dotfp.1, rest)
    | none => none

/-- `determine_config` of `src/app.py` (lines 111–113). -/
def determine_config (area t1 t2 t3 : ℚ) : String :=
  if area = 0 then "N/A"
  else if area < t1 then "1 BHK"
  else if area < t2 then "2 BHK"
  else if area < t3 then "3 BHK"
  else "4 BHK"

/-- The APR lambda of `src/app.py` (line 166):
`round(consideration / saleable, 3) if saleable > 0 else 0`. -/
def computeAPR (consideration saleable : ℚ) : ℚ :=
  if saleable > 0 then pyRound3 (consideration / saleable) else 0

/-- The `total_keywords` alternation of `src/app.py` (line 102):
`(?:ए[ककु]ण\s*क्षेत्र|क्षेत्रफळ|total\s*area)`.  The pattern is defined in the
source but never used by `extract_area_logic`. -/
def matchTotalKw (cs : List Char) : Option (List Char) :=
  match
    (match stripLit ("ए".data) cs with
     | none => none
     | some r1 =>
       match eatOneOf ("ककु".data) r1 with
       | none => none
       | some r2 =>
         match stripLit ("ण".data) r2 with
         | none => none
         | some r3 => stripLit ("क्षेत्र".data) (r3.dropWhile pyIsSpace))
  with
  | some r => some r
  | none =>
    match stripLit ("क्षेत्रफळ".data) cs with
    | some r => some r
    | none =>
      match stripLitCI ("total".data) cs with
      | none => none
      | some r1 => stripLitCI ("area".data) (r1.dropWhile pyIsSpace)

/-- Modelled from the spec: the declared-total branch ("explicit total-area
declaration") is absent from the code, so its trigger condition is modelled
as an occurrence of the source's (unused) `total_keywords` pattern anywhere
in the normalized text. -/
def hasTotalKeyword : List Char → Bool
  | [] => false
  | c :: t => (matchTotalKw (c :: t)).isSome || hasTotalKeyword t

/-- Modelled from the spec: the precomputed-subtotal branch ("the last
quantity approximately equals, within 1.0 unit, the sum of all the others")
is absent from the code; its trigger condition on the surviving quantities. -/
def lastIsPrecomputedTotal (l : List ℚ) : Prop :=
  2 ≤ l.length ∧ |l.getLastD 0 - l.dropLast.sum| ≤ 1

instance (l : List ℚ) : Decidable (lastIsPrecomputedTotal l) := by
  unfold lastIsPrecomputedTotal
  infer_instance

/-- One input row: the three columns the pipeline reads (lines 159–166). -/
structure InRow where
  description : Option String
  consideration : ℚ
  property : String
deriving DecidableEq

/-- One augmented row of the output dataframe (lines 163–167). -/
structure DRow where
  property : String
  consideration : ℚ
  carpetMT : ℚ
  carpetFT : ℚ
  saleable : ℚ
  apr : ℚ
  config : String
deriving DecidableEq

/-- The per-record derivation (lines 163–167): carpet area (metric), carpet
area (imperial, `* 10.764`, rounded), saleable area (`* loading`, rounded),
APR and configuration label. -/
def deriveRow (loading t1 t2 t3 : ℚ) (r : InRow) : DRow :=
  let mt := extract_area_logic r.description
  let ft := pyRound3 (mt * 10.764)
  let sal := pyRound3 (ft * loading)
  { property := r.property
    consideration := r.consideration
    carpetMT := mt
    carpetFT := ft
    saleable := sal
    apr := computeAPR r.consideration sal
    config := determine_config ft t1 t2 t3 }

/-- The augmented raw dataframe written to the 'Raw Data' sheet (line 190):
every input row, including zero-area ones, with the derived columns added. -/
def rawOutput (loading t1 t2 t3 : ℚ) (rows : List InRow) : List DRow :=
  rows.map (deriveRow loading t1 t2 t3)

/-- `valid_df` (line 169): rows with `Carpet Area (SQ.FT) > 0`. -/
def validRows (loading t1 t2 t3 : ℚ) (rows : List InRow) : List DRow :=
  (rawOutput loading t1 t2 t3 rows).filter (fun r => decide (0 < r.carpetFT))

/-- The groupby key (line 170): (property, configuration, carpet area sq.ft). -/
abbrev AggKey := String × String × ℚ

def keyOf (r : DRow) : AggKey := (r.property, r.config, r.carpetFT)

/-- Lexicographic strict order on group keys: property, then configuration,
then area — the order pandas emits sorted group keys in. -/
def keyLT (a b : AggKey) : Prop :=
  a.1 < b.1 ∨ (a.1 = b.1 ∧ (a.2.1 < b.2.1 ∨ (a.2.1 = b.2.1 ∧ a.2.2 < b.2.2)))

instance (a b : AggKey) : Decidable (keyLT a b) := by
  unfold keyLT
  infer_instance

/-- Insert a key into a strictly sorted key list, dropping duplicates. -/
def insertKey (k : AggKey) : List AggKey → List AggKey
  | [] => [k]
  | k' :: t =>
    if keyLT k k' then k :: k' :: t
    else if k = k' then k' :: t
    else k' :: insertKey k t

/-- The sorted, deduplicated group keys of a row collection. -/
def sortedKeysOf (l : List DRow) : List AggKey :=
  l.foldr (fun r acc => insertKey (keyOf r) acc) []

def listMin : List ℚ → ℚ
  | [] => 0
  | x :: t => t.foldl min x

def listMax : List ℚ → ℚ
  | [] => 0
  | x :: t => t.foldl max x

def insertRat (x : ℚ) : List ℚ → List ℚ
  | [] => [x]
  | y :: t => if x ≤ y then x :: y :: t else y :: insertRat x t

def sortRats (l : List ℚ) : List ℚ := l.foldr insertRat []

/-- Remove adjacent duplicates of a sorted list. -/
def dedupSorted : List ℚ → List ℚ
  | [] => []
  | [x] => [x]
  | x :: y :: t => if x = y then dedupSorted (y :: t) else x :: dedupSorted (y :: t)

def countOf (l : List ℚ) (v : ℚ) : ℕ :=
  (l.filter (fun z => decide (z = v))).length

/-- `x.mode().iloc[0]` on a nonempty series: the smallest value of maximal
multiplicity (pandas returns modes sorted ascending); `0` on an empty one. -/
def modeOf (l : List ℚ) : ℚ :=
  match dedupSorted (sortRats l) with
  | [] => 0
  | x :: t => t.foldl (fun best y => if countOf l best < countOf l y then y else best) x

/-- pandas `median`: middle element, or mean of the two middles. -/
def medianOf (l : List ℚ) : ℚ :=
  let s := sortRats l
  let n := s.length
  if n = 0 then 0
  else if n % 2 = 1 then s.getD (n / 2) 0
  else (s.getD (n / 2 - 1) 0 + s.getD (n / 2) 0) / 2

def meanOf (l : List ℚ) : ℚ :=
  if l.length = 0 then 0 else l.sum / (l.length : ℚ)

/-- One summary row's aggregate columns (lines 170–174). -/
structure SummaryStats where
  minAPR : ℚ
  maxAPR : ℚ
  avgAPR : ℚ
  medianAPR : ℚ
  modeAPR : ℚ
  propertyCount : ℕ
deriving DecidableEq

def statsOf (l : List ℚ) : SummaryStats :=
  { minAPR := listMin l
    maxAPR := listMax l
    avgAPR := meanOf l
    medianAPR := medianOf l
    modeAPR := modeOf l
    propertyCount := l.length }

/-- The summary dataframe (lines 169–175): nonzero-area rows grouped by
(property, configuration, carpet area), keys sorted ascending, one stats row
per key.  The aggregates are order-insensitive, so the stable row order of
`valid_df` is not re-modelled. -/
def summarize (loading t1 t2 t3 : ℚ) (rows : List InRow) :
    List (AggKey × SummaryStats) :=
  (sortedKeysOf (validRows loading t1 t2 t3 rows)).map fun k =>
    (k, statsOf (((validRows loading t1 t2 t3 rows).filter
      (fun r => decide (keyOf r = k))).map DRow.apr))

/-- Two concrete input rows (one resolvable description, one blank) used to
instantiate the pipeline theorems. -/
def rows0 : List InRow :=
  [⟨some "45 sq.mt flat", 9000000, "Alpha"⟩, ⟨none, 5000000, "Beta"⟩]

/-! ### Helper lemmas -/

theorem dropWhile_length_le (p : Char → Bool) (cs : List Char) :
    (cs.dropWhile p).length ≤ cs.length := by
  induction cs with
  | nil => simp
  | cons c t ih =>
    cases hp : p c <;> simp [List.dropWhile, hp]
    exact ih.trans (Nat.le_succ _)

theorem stripLit_length_le :
    ∀ (p cs r : List Char), stripLit p cs = some r → r.length ≤ cs.length := by
  intro p
  induction p with
  | nil =>
    intro cs r h
    simp [stripLit] at h
    simp [h]
  | cons x xs ih =>
    intro cs r h
    cases cs with
    | nil => simp [stripLit] at h
    | cons c t =>
      simp only [stripLit] at h
      split_ifs at h
      exact (ih t r h).trans (Nat.le_succ _)

theorem stripLitCI_length_le :
    ∀ (p cs r : List Char), stripLitCI p cs = some r → r.length ≤ cs.length := by
  intro p
  induction p with
  | nil =>
    intro cs r h
    simp [stripLitCI] at h
    simp [h]
  | cons x xs ih =>
    intro cs r h
    cases cs with
    | nil => simp [stripLitCI] at h
    | cons c t =>
      simp only [stripLitCI] at h
      split_ifs at h
      exact (ih t r h).trans (Nat.le_succ _)

theorem eatOneOf_length_le (s cs r : List Char) (h : eatOneOf s cs = some r) :
    r.length ≤ cs.length := by
  cases cs with
  | nil => simp [eatOneOf] at h
  | cons c t =>
    simp only [eatOneOf] at h
    split_ifs at h
    cases h
    exact Nat.le_succ _

theorem eatOptDot_length_le (cs : List Char) : (eatOptDot cs).length ≤ cs.length := by
  cases cs with
  | nil => simp [eatOptDot]
  | cons c t =>
    by_cases hc : c = '.'
    · subst hc
      simp [eatOptDot, Nat.le_succ]
    · simp [eatOptDot, hc]

theorem mUnitAlt1_length_le (cs r : List Char) (h : mUnitAlt1 cs = some r) :
    r.length ≤ cs.length := by
  unfold mUnitAlt1 at h
  split at h
  · cases h
  next r1 h1 =>
    split at h
    · cases h
    next r2 h2 =>
      cases h
      have e2 := stripLit_length_le _ _ _ h2
      have e3 := dropWhile_length_le pyIsSpace (eatOptDot r1)
      have e4 := eatOptDot_length_le r1
      have e5 := stripLit_length_le _ _ _ h1
      have e6 := eatOptDot_length_le r2
      omega

theorem mUnitAlt2_length_le (cs r : List Char) (h : mUnitAlt2 cs = some r) :
    r.length ≤ cs.length := by
  unfold mUnitAlt2 at h
  split at h
  · cases h
  next r1 h1 =>
    split at h
    · cases h
    next r2 h2 =>
      split at h
      · cases h
      next r3 h3 =>
        have e1 := stripLit_length_le _ _ _ h1
        have e2 := dropWhile_length_le pyIsSpace r1
        have e3 := stripLit_length_le _ _ _ h2
        have e4 := eatOneOf_length_le _ _ _ h3
        have e5 := stripLit_length_le _ _ _ h
        omega

theorem mUnitAlt3_length_le (cs r : List Char) (h : mUnitAlt3 cs = some r) :
    r.length ≤ cs.length := by
  unfold mUnitAlt3 at h
  split at h
  · cases h
  next r1 h1 =>
    split at h
    · cases h
    next r2 h2 =>
      cases h
      have e1 := stripLitCI_length_le _ _ _ h1
      have e2 := dropWhile_length_le pyIsSpace (eatOptDot r1)
      have e3 := eatOptDot_length_le r1
      have e4 := stripLitCI_length_le _ _ _ h2
      have e5 : (match stripLitCI ("tr".data) r2 with
          | some r3 => r3
          | none => r2).length ≤ r2.length := by
        split
        · next r3 h3 => exact stripLitCI_length_le _ _ _ h3
        · exact le_refl _
      have e6 := eatOptDot_length_le (match stripLitCI ("tr".data) r2 with
          | some r3 => r3
          | none => r2)
      omega

theorem matchMUnit_length_le (cs r : List Char) (h : matchMUnit cs = some r) :
    r.length ≤ cs.length := by
  unfold matchMUnit at h
  split at h
  · next h1 =>
    cases h
    exact mUnitAlt1_length_le _ _ h1
  · split at h
    · next h2 =>
      cases h
      exact mUnitAlt2_length_le _ _ h2
    · exact mUnitAlt3_length_le _ _ h

theorem matchNumUnitAt_length_lt (cs cap rest : List Char)
    (h : matchNumUnitAt cs = some (cap, rest)) : rest.length < cs.length := by
  unfold matchNumUnitAt at h
  split at h
  · cases h
  next d ds htake =>
    simp only at h
    split at h
    · next hm =>
      cases h
      have hlen : cs.length = (d :: ds).length + (cs.dropWhile pyIsDigit).length := by
        conv_lhs => rw [← List.takeWhile_append_dropWhile (p := pyIsDigit) (l := cs)]
        rw [htake, List.length_append]
      have hd2 : (match cs.dropWhile pyIsDigit with
          | [] => (([] : List Char), ([] : List Char))
          | c :: t =>
            if c = '.' then ('.' :: t.takeWhile pyIsDigit, t.dropWhile pyIsDigit)
            else ([], c :: t)).2.length ≤ (cs.dropWhile pyIsDigit).length := by
        split
        · simp
        · next c t heq =>
          split_ifs
          · simp only
            have := dropWhile_length_le pyIsDigit t
            simp only [heq, List.length_cons]
            omega
          · simp [heq]
      have e1 := matchMUnit_length_le _ _ hm
      have e2 := dropWhile_length_le pyIsSpace
        (match cs.dropWhile pyIsDigit with
          | [] => (([] : List Char), ([] : List Char))
          | c :: t =>
            if c = '.' then ('.' :: t.takeWhile pyIsDigit, t.dropWhile pyIsDigit)
            else ([], c :: t)).2
      simp only [List.length_cons] at hlen
      omega
    · cases h

theorem scanSplitF_nil (n : ℕ) (acc : List Char) : scanSplitF n [] acc = [] := by
  cases n <;> rfl

/-- The fuel argument of `scanSplitF` is irrelevant as soon as it is at least
the input length: every step consumes at least one character. -/
theorem scanSplitF_fuel_irrelevant :
    ∀ (bound : ℕ) (cs acc : List Char) (n m : ℕ), cs.length ≤ bound →
      cs.length ≤ n → cs.length ≤ m → scanSplitF n cs acc = scanSplitF m cs acc := by
  intro bound
  induction bound with
  | zero =>
    intro cs acc n m hb _ _
    have : cs = [] := List.length_eq_zero.mp (Nat.le_zero.mp hb)
    subst this
    rw [scanSplitF_nil, scanSplitF_nil]
  | succ b ih =>
    intro cs acc n m hb hn hm
    cases cs with
    | nil => rw [scanSplitF_nil, scanSplitF_nil]
    | cons c rest =>
      cases n with
      | zero => simp at hn
      | succ n' =>
        cases m with
        | zero => simp at hm
        | succ m' =>
          simp only [List.length_cons] at hb hn hm
          show (match matchNumUnitAt (c :: rest) with
            | some (cap, after) => (acc.reverse, cap) :: scanSplitF n' after []
            | none => scanSplitF n' rest (c :: acc)) =
            (match matchNumUnitAt (c :: rest) with
            | some (cap, after) => (acc.reverse, cap) :: scanSplitF m' after []
            | none => scanSplitF m' rest (c :: acc))
          rcases hmatch : matchNumUnitAt (c :: rest) with - | ⟨cap, after⟩
          · simp only
            exact ih rest (c :: acc) n' m' (by omega) (by omega) (by omega)
          · simp only
            have hlt := matchNumUnitAt_length_lt _ _ _ hmatch
            simp only [List.length_cons] at hlt
            rw [ih after [] n' m' (by omega) (by omega) (by omega)]

theorem pyRound3_zero : pyRound3 0 = 0 := by decide

/-- `extract_area_logic` always returns the rounded sum of the surviving
quantities (which is `0` when none survive). -/
theorem extract_eq_roundSum (s : String) :
    extract_area_logic (some s) = pyRound3 (mVals (normText s)).sum := by
  by_cases hs : s = ""
  · subst hs
    decide
  · show (if s = "" then 0 else
      match mVals (normText s) with
      | [] => 0
      | v :: vs => pyRound3 ((v :: vs).sum)) = pyRound3 (mVals (normText s)).sum
    rw [if_neg hs]
    rcases hv : mVals (normText s) with - | ⟨v, vs⟩
    · simp [pyRound3_zero]
    · simp only

theorem keyLT_trans (a b c : AggKey) (hab : keyLT a b) (hbc : keyLT b c) :
    keyLT a c := by
  obtain ⟨a1, a2, a3⟩ := a
  obtain ⟨b1, b2, b3⟩ := b
  obtain ⟨c1, c2, c3⟩ := c
  simp only [keyLT] at hab hbc ⊢
  rcases hab with h1 | ⟨he1, h1⟩
  · rcases hbc with h2 | ⟨he2, h2⟩
    · exact Or.inl (lt_trans h1 h2)
    · exact Or.inl (he2 ▸ h1)
  · rcases hbc with h2 | ⟨he2, h2⟩
    · exact Or.inl (he1 ▸ h2)
    · refine Or.inr ⟨he1.trans he2, ?_⟩
      rcases h1 with h1 | ⟨hf1, h1⟩
      · rcases h2 with h2 | ⟨hf2, h2⟩
        · exact Or.inl (lt_trans h1 h2)
        · exact Or.inl (hf2 ▸ h1)
      · rcases h2 with h2 | ⟨hf2, h2⟩
        · exact Or.inl (hf1 ▸ h2)
        · exact Or.inr ⟨hf1.trans hf2, lt_trans h1 h2⟩

theorem keyLT_total (a b : AggKey) : keyLT a b ∨ a = b ∨ keyLT b a := by
  obtain ⟨a1, a2, a3⟩ := a
  obtain ⟨b1, b2, b3⟩ := b
  simp only [keyLT, Prod.mk.injEq]
  rcases lt_trichotomy a1 b1 with h1 | h1 | h1
  · exact Or.inl (Or.inl h1)
  · rcases lt_trichotomy a2 b2 with h2 | h2 | h2
    · exact Or.inl (Or.inr ⟨h1, Or.inl h2⟩)
    · rcases lt_trichotomy a3 b3 with h3 | h3 | h3
      · exact Or.inl (Or.inr ⟨h1, Or.inr ⟨h2, h3⟩⟩)
      · exact Or.inr (Or.inl ⟨h1, h2, h3⟩)
      · exact Or.inr (Or.inr (Or.inr ⟨h1.symm, Or.inr ⟨h2.symm, h3⟩⟩))
    · exact Or.inr (Or.inr (Or.inr ⟨h1.symm, Or.inl h2⟩))
  · exact Or.inr (Or.inr (Or.inl h1))

theorem mem_insertKey (x k : AggKey) :
    ∀ l : List AggKey, x ∈ insertKey k l ↔ x = k ∨ x ∈ l := by
  intro l
  induction l with
  | nil => simp [insertKey]
  | cons k' t ih =>
    simp only [insertKey]
    split_ifs with h1 h2
    · simp [List.mem_cons]
    · subst h2
      simp only [List.mem_cons]
      constructor
      · intro h
        exact Or.inr h
      · rintro (rfl | h)
        · exact Or.inl rfl
        · exact h
    · simp only [List.mem_cons, ih]
      tauto

theorem pairwise_insertKey (k : AggKey) (l : List AggKey)
    (h : l.Pairwise keyLT) : (insertKey k l).Pairwise keyLT := by
  induction l with
  | nil => simp [insertKey]
  | cons k' t ih =>
    rw [List.pairwise_cons] at h
    obtain ⟨hk', ht⟩ := h
    simp only [insertKey]
    split_ifs with h1 h2
    · rw [List.pairwise_cons]
      refine ⟨?_, ?_⟩
      · intro x hx
        rcases List.mem_cons.mp hx with rfl | hx
        · exact h1
        · exact keyLT_trans _ _ _ h1 (hk' x hx)
      · rw [List.pairwise_cons]
        exact ⟨hk', ht⟩
    · rw [List.pairwise_cons]
      exact ⟨hk', ht⟩
    · rw [List.pairwise_cons]
      refine ⟨?_, ih ht⟩
      intro x hx
      rcases (mem_insertKey x k t).mp hx with rfl | hx
      · rcases keyLT_total x k' with hlt | heq | hgt
        · exact absurd hlt h1
        · exact absurd heq h2
        · exact hgt
      · exact hk' x hx

theorem pairwise_sortedKeysOf (l : List DRow) :
    (sortedKeysOf l).Pairwise keyLT := by
  induction l with
  | nil => simp [sortedKeysOf]
  | cons r t ih => exact pairwise_insertKey _ _ ih

theorem mem_sortedKeysOf (k : AggKey) (l : List DRow) :
    k ∈ sortedKeysOf l ↔ ∃ r, r ∈ l ∧ keyOf r = k := by
  induction l with
  | nil => simp [sortedKeysOf]
  | cons r t ih =>
    show k ∈ insertKey (keyOf r) (sortedKeysOf t) ↔ _
    rw [mem_insertKey, ih]
    simp only [List.mem_cons]
    constructor
    · rintro (rfl | ⟨r', hr', rfl⟩)
      · exact ⟨r, Or.inl rfl, rfl⟩
      · exact ⟨r', Or.inr hr', rfl⟩
    · rintro ⟨r', hr' | hr', rfl⟩
      · subst hr'
        exact Or.inl rfl
      · exact Or.inr ⟨r', hr', rfl⟩

theorem summarize_map_fst (loading t1 t2 t3 : ℚ) (rows : List InRow) :
    (summarize loading t1 t2 t3 rows).map Prod.fst =
      sortedKeysOf (validRows loading t1 t2 t3 rows) := by
  have : (Prod.fst ∘ fun k : AggKey =>
      (k, statsOf (((validRows loading t1 t2 t3 rows).filter
        (fun r => decide (keyOf r = k))).map DRow.apr))) = fun k => k := rfl
  simp [summarize, List.map_map, this]

theorem mem_validRows (loading t1 t2 t3 : ℚ) (rows : List InRow) (d : DRow) :
    d ∈ validRows loading t1 t2 t3 rows ↔
      ∃ r, r ∈ rows ∧ deriveRow loading t1 t2 t3 r = d ∧ 0 < d.carpetFT := by
  simp only [validRows, rawOutput, List.mem_filter, List.mem_map,
    decide_eq_true_eq]
  tauto

/-! ### Claim theorems -/

/-- C1: the claim says an explicit "total area" declaration (keyword + number
+ metric unit) overrides the itemized sum, so itemized 12 and 30 with a
declared total of 45 should resolve to 45.  The code has no declaration
branch (its `total_keywords` pattern is unused): the declared 45 is treated
as one more itemized quantity and the result is 12 + 30 + 45 = 87, not 45. -/
theorem total_declaration_not_applied :
    extract_area_logic (some "12 sq.mt 30 sq.mt total area: 45 sq.mt") = 87 ∧
      hasTotalKeyword (normText "12 sq.mt 30 sq.mt total area: 45 sq.mt") = true ∧
      (87 : ℚ) ≠ 45 :=
  ⟨by decide, by decide, by decide⟩

/-- C2 counterexample: the quantity sequence [20, 25, 45] (45 = 20 + 25) is
claimed to resolve to 45; the code returns the plain sum 90. -/
theorem subtotal_heuristic_cex :
    mVals (normText "20 sq.mt 25 sq.mt 45 sq.mt") = [20, 25, 45] ∧
      extract_area_logic (some "20 sq.mt 25 sq.mt 45 sq.mt") = 90 ∧
      (90 : ℚ) ≠ 45 :=
  ⟨by decide, by decide, by decide⟩

/-- C2 (amended): with two or more surviving metric quantities the resolver
returns the rounded sum of all of them, even when the last equals the sum of
the others — there is no precomputed-subtotal branch; [20, 25, 45] resolves
to 90, not 45. -/
theorem sum_returned_despite_subtotal (s : String)
    (_h : 2 ≤ (mVals (normText s)).length) :
    extract_area_logic (some s) = pyRound3 (mVals (normText s)).sum :=
  extract_eq_roundSum s

theorem sum_returned_despite_subtotal_witness :
    2 ≤ (mVals (normText "20 sq.mt 25 sq.mt 45 sq.mt")).length ∧
      extract_area_logic (some "20 sq.mt 25 sq.mt 45 sq.mt") =
        pyRound3 (mVals (normText "20 sq.mt 25 sq.mt 45 sq.mt")).sum :=
  ⟨by decide, sum_returned_despite_subtotal "20 sq.mt 25 sq.mt 45 sq.mt" (by decide)⟩

/-- C3: the claim says that when no metric quantity survives but an imperial
(square-foot) one does, the resolver falls back to imperial and converts.
The code never scans for the imperial pattern (its `f_unit` regex is unused):
on "500 sq.ft", whose imperial pattern match is exhibited by the second
conjunct, it returns the unresolved sentinel 0 instead of
500 / 10.764 ≈ 46.451. -/
theorem imperial_quantities_ignored :
    extract_area_logic (some "500 sq.ft") = 0 ∧
      matchNumFUnitAt (normText "500 sq.ft") = some ("500".data, []) ∧
      (0 : ℚ) ≠ 46.451 :=
  ⟨by decide, by decide, by decide⟩

/-- C4 counterexample: the zero area maps to the string "N/A", not
"unresolved", and the band labels carry a space ("2 BHK", not "2BHK"). -/
theorem config_zero_label_cex :
    determine_config 0 600 850 1100 = "N/A" ∧ ("N/A" : String) ≠ "unresolved" ∧
      determine_config 700 600 850 1100 = "2 BHK" ∧ ("2 BHK" : String) ≠ "2BHK" :=
  ⟨by decide, by decide, by decide, by decide⟩

/-- C4 (amended): for thresholds t1 < t2 < t3 the classifier is total: area 0
maps to the sentinel label "N/A", any other area below t1 to "1 BHK",
[t1, t2) to "2 BHK", [t2, t3) to "3 BHK", at or above t3 to "4 BHK", and
every nonzero area receives exactly one of those four labels. -/
theorem config_bands_partition (t1 t2 t3 a : ℚ) (h12 : t1 < t2) (h23 : t2 < t3)
    (ha : a ≠ 0) :
    determine_config 0 t1 t2 t3 = "N/A"
    ∧ (a < t1 → determine_config a t1 t2 t3 = "1 BHK")
    ∧ (t1 ≤ a → a < t2 → determine_config a t1 t2 t3 = "2 BHK")
    ∧ (t2 ≤ a → a < t3 → determine_config a t1 t2 t3 = "3 BHK")
    ∧ (t3 ≤ a → determine_config a t1 t2 t3 = "4 BHK")
    ∧ (determine_config a t1 t2 t3 = "1 BHK" ∨ determine_config a t1 t2 t3 = "2 BHK"
       ∨ determine_config a t1 t2 t3 = "3 BHK" ∨ determine_config a t1 t2 t3 = "4 BHK") := by
  refine ⟨by simp [determine_config], ?_, ?_, ?_, ?_, ?_⟩
  · intro h
    simp only [determine_config, if_neg ha, if_pos h]
  · intro hle hlt
    simp only [determine_config, if_neg ha, if_neg (not_lt.mpr hle), if_pos hlt]
  · intro hle hlt
    have h1 : ¬ a < t1 := not_lt.mpr ((le_of_lt h12).trans hle)
    have h2 : ¬ a < t2 := not_lt.mpr hle
    simp only [determine_config, if_neg ha, if_neg h1, if_neg h2, if_pos hlt]
  · intro hle
    have h1 : ¬ a < t1 := not_lt.mpr ((le_of_lt (h12.trans h23)).trans hle)
    have h2 : ¬ a < t2 := not_lt.mpr ((le_of_lt h23).trans hle)
    have h3 : ¬ a < t3 := not_lt.mpr hle
    simp only [determine_config, if_neg ha, if_neg h1, if_neg h2, if_neg h3]
  · simp only [determine_config, if_neg ha]
    split_ifs
    · exact Or.inl rfl
    · exact Or.inr (Or.inl rfl)
    · exact Or.inr (Or.inr (Or.inl rfl))
    · exact Or.inr (Or.inr (Or.inr rfl))

theorem config_bands_partition_witness :
    ((600 : ℚ) < 850 ∧ (850 : ℚ) < 1100 ∧ (700 : ℚ) ≠ 0 ∧ (600 : ℚ) ≤ 700 ∧
      (700 : ℚ) < 850) ∧ determine_config 700 600 850 1100 = "2 BHK" :=
  ⟨⟨by norm_num, by norm_num, by norm_num, by norm_num, by norm_num⟩,
   (config_bands_partition 600 850 1100 700 (by norm_num) (by norm_num)
      (by norm_num)).2.2.1 (by norm_num) (by norm_num)⟩

/-- C5: the APR (rate) computation returns consideration / saleable rounded
to 3 decimals when the saleable area is positive and 0 when it is zero or
negative; it is a total function (no exception path), with
rate(9000000, 0) = 0 and rate(9000000, 1000) = 9000. -/
theorem apr_rate_division_guard :
    (∀ c s : ℚ, s ≤ 0 → computeAPR c s = 0) ∧
      (∀ c s : ℚ, 0 < s → computeAPR c s = pyRound3 (c / s)) ∧
      computeAPR 9000000 0 = 0 ∧ computeAPR 9000000 1000 = 9000 := by
  refine ⟨?_, ?_, by decide, by decide⟩
  · intro c s hs
    simp only [computeAPR]
    rw [if_neg (not_lt.mpr hs)]
  · intro c s hs
    simp only [computeAPR]
    rw [if_pos hs]

theorem apr_rate_division_guard_witness :
    ((-2 : ℚ) ≤ 0 ∧ computeAPR 9000000 (-2) = 0) ∧
      (0 < (1000 : ℚ) ∧ computeAPR 9000000 1000 = pyRound3 (9000000 / 1000)) :=
  ⟨⟨by norm_num, apr_rate_division_guard.1 9000000 (-2) (by norm_num)⟩,
   ⟨by norm_num, apr_rate_division_guard.2.1 9000000 1000 (by norm_num)⟩⟩

/-- C6: the claim says a quantity whose preceding context names parking is
excluded, so that parking never contributes and
"10 sq.mt parking, 45 sq.mt total area" resolves to 45.  In that text the
word "parking" lies in the segment preceding the 45-match, so the code
excludes the legitimate 45 and keeps the 10 of the parking stall itself:
the result is 10 — the parking quantity is the sole contributor. -/
theorem parking_quantity_retained :
    mVals (normText "10 sq.mt parking, 45 sq.mt total area") = [10] ∧
      extract_area_logic (some "10 sq.mt parking, 45 sq.mt total area") = 10 ∧
      (10 : ℚ) ≠ 45 ∧ (10 : ℚ) ≠ 55 :=
  ⟨by decide, by decide, by decide, by decide⟩

/-- C7: every quantity that survives filtering lies strictly between 0 and
500; values outside the open interval are discarded by the keep-condition
and never reach the sum. -/
theorem surviving_metric_values_bounded (s : String) (v : ℚ)
    (hv : v ∈ mVals (normText s)) : 0 < v ∧ v < 500 := by
  simp only [mVals, List.mem_filterMap] at hv
  obtain ⟨⟨ctx, cap⟩, -, hkeep⟩ := hv
  simp only [keepVal] at hkeep
  split_ifs at hkeep with hcond
  · rw [Option.some.injEq] at hkeep
    subst hkeep
    exact ⟨hcond.1, hcond.2.1⟩

theorem surviving_metric_values_bounded_witness :
    (20 : ℚ) ∈ mVals (normText "20 sq.mt 25 sq.mt") ∧
      (0 < (20 : ℚ) ∧ (20 : ℚ) < 500) :=
  ⟨by decide, surviving_metric_values_bounded "20 sq.mt 25 sq.mt" 20 (by decide)⟩

/-- C8: when the text has no total-area keyword and the surviving quantities
do not form a precomputed-subtotal pattern, the resolver returns the sum of
all surviving quantities rounded to 3 decimals (the code takes this
summation path unconditionally). -/
theorem fallback_sum_of_survivors (s : String)
    (_hkw : hasTotalKeyword (normText s) = false)
    (_hsub : ¬ lastIsPrecomputedTotal (mVals (normText s))) :
    extract_area_logic (some s) = pyRound3 (mVals (normText s)).sum :=
  extract_eq_roundSum s

theorem fallback_sum_of_survivors_witness :
    (hasTotalKeyword (normText "20 sq.mt 25 sq.mt") = false ∧
      ¬ lastIsPrecomputedTotal (mVals (normText "20 sq.mt 25 sq.mt"))) ∧
      extract_area_logic (some "20 sq.mt 25 sq.mt") = 45 :=
  ⟨⟨by decide, by decide⟩,
   (fallback_sum_of_survivors "20 sq.mt 25 sq.mt" (by decide) (by decide)).trans
     (by decide)⟩

/-- C9: the summary contains exactly the keys (property, configuration,
carpet area) of derived rows with positive area — zero-area rows are excluded
from grouping but all rows are retained in the raw per-record output — and the
summary rows are emitted in strictly ascending key order (property, then
configuration, then area), which also makes the output deterministic. -/
theorem summary_grouping_sorted_filtered (loading t1 t2 t3 : ℚ)
    (rows : List InRow) :
    List.Pairwise keyLT ((summarize loading t1 t2 t3 rows).map Prod.fst)
    ∧ (∀ k : AggKey, k ∈ (summarize loading t1 t2 t3 rows).map Prod.fst ↔
        ∃ r, r ∈ rows ∧ 0 < (deriveRow loading t1 t2 t3 r).carpetFT
          ∧ keyOf (deriveRow loading t1 t2 t3 r) = k)
    ∧ (rawOutput loading t1 t2 t3 rows).length = rows.length := by
  refine ⟨?_, ?_, by simp [rawOutput]⟩
  · rw [summarize_map_fst]
    exact pairwise_sortedKeysOf _
  · intro k
    rw [summarize_map_fst, mem_sortedKeysOf]
    constructor
    · rintro ⟨d, hd, rfl⟩
      obtain ⟨r, hr, rfl, hpos⟩ := (mem_validRows _ _ _ _ _ _).mp hd
      exact ⟨r, hr, hpos, rfl⟩
    · rintro ⟨r, hr, hpos, rfl⟩
      exact ⟨deriveRow loading t1 t2 t3 r,
        (mem_validRows _ _ _ _ _ _).mpr ⟨r, hr, rfl, hpos⟩, rfl⟩

theorem summary_grouping_sorted_filtered_witness :
    List.Pairwise keyLT ((summarize 1.35 600 850 1100 rows0).map Prod.fst)
    ∧ (rawOutput 1.35 600 850 1100 rows0).length = rows0.length :=
  ⟨(summary_grouping_sorted_filtered 1.35 600 850 1100 rows0).1,
   (summary_grouping_sorted_filtered 1.35 600 850 1100 rows0).2.2⟩

/-- C10: a missing (NaN) description or the empty string short-circuits to
the unresolved sentinel 0.0 before any pattern matching is attempted. -/
theorem blank_text_unresolved :
    extract_area_logic none = 0 ∧ extract_area_logic (some "") = 0 :=
  ⟨by decide, by decide⟩

end App
